import Mathlib

/-!
Shallow embedding of the User-Management-Dashboard core logic:
the field validation engine (src/utils/validation.ts), the
filter → sort → paginate pipeline and the CRUD state transitions
(src/App.tsx), and the record construction of the API service.
Strings are modelled by Lean `String` (a wrapper over `List Char`);
JavaScript string operations are modelled character-wise over `.data`.
-/

namespace Dashboard

/-- ASCII whitespace, the model of the JS `\s` class / `String.trim`
character set (space, tab, LF, VT, FF, CR). -/
def isWs (c : Char) : Bool :=
  c = ' ' || c = Char.ofNat 9 || c = Char.ofNat 10 || c = Char.ofNat 11 ||
  c = Char.ofNat 12 || c = Char.ofNat 13

/-- Model of JS `String.prototype.trim`: drop whitespace at both ends. -/
def trimChars (l : List Char) : List Char :=
  ((l.dropWhile isWs).reverse.dropWhile isWs).reverse

/-- Model of JS `String.prototype.trim` on `String`. -/
def trimS (s : String) : String := String.mk (trimChars s.data)

/-- Model of JS `String.prototype.toLowerCase` (ASCII range). -/
def lowerS (s : String) : String := String.mk (s.data.map Char.toLower)

/-- `leadsWith pat l` is true when `pat` occurs at the head of `l`. -/
def leadsWith : List Char → List Char → Bool
  | [], _ => true
  | _ :: _, [] => false
  | a :: as, b :: bs => a = b && leadsWith as bs

/-- `containsSeq pat l` is true when `pat` occurs contiguously in `l`;
model of JS `String.prototype.includes`. -/
def containsSeq (pat : List Char) : List Char → Bool
  | [] => pat.isEmpty
  | c :: rest => leadsWith pat (c :: rest) || containsSeq pat rest

/-- Model of JS `hay.includes(pat)` on `String`. -/
def strIncludes (hay pat : String) : Bool := containsSeq pat.data hay.data

/-- Split a character list at every occurrence of `sep`; the separators are
dropped and the (possibly empty) pieces are returned in order. Model of JS
`String.prototype.split` with a single-character separator. -/
def splitOnChar (sep : Char) : List Char → List (List Char)
  | [] => [[]]
  | c :: rest =>
    let r := splitOnChar sep rest
    if c = sep then [] :: r else (c :: r.headD []) :: r.tail

/-- Result type of every field validator (validation.ts `ValidationResult`). -/
structure ValidationResult where
  isValid : Bool
  message : String
deriving DecidableEq, Repr

/-- The character class of the local part in the email regex of
validation.ts line 29: alphanumerics and the punctuation listed there
(dot, bang, hash, dollar, percent, ampersand, apostrophe, star, plus,
slash, equals, question mark, caret, underscore, backquote, braces,
pipe, tilde, hyphen). The four characters the token scanner of this
file cannot spell literally are given by code point. -/
def isEmailLocalChar (c : Char) : Bool :=
  c.isAlphanum || c = '.' || c = '!' || c = '#' || c = '$' || c = '%' ||
  c = '&' || c = '*' || c = '+' || c = '/' || c = '=' || c = '?' ||
  c = '^' || c = '_' || c = '~' || c = '-' ||
  c = Char.ofNat 39 || c = Char.ofNat 96 || c = Char.ofNat 123 ||
  c = Char.ofNat 124 || c = Char.ofNat 125

/-- Interior character of a domain label: alphanumeric or hyphen
(the `[a-zA-Z0-9-]` class of the email regex). -/
def isLabelMidChar (c : Char) : Bool := c.isAlphanum || c = '-'

/-- A domain label as accepted by the regex fragment
`[a-zA-Z0-9](?:[a-zA-Z0-9-]{0,61}[a-zA-Z0-9])?`: one alphanumeric, or an
alphanumeric, then at most 61 alphanumeric-or-hyphen characters, then a
final alphanumeric (total length 1 to 63). -/
def okLabel : List Char → Bool
  | [] => false
  | [c] => c.isAlphanum
  | c :: rest =>
    c.isAlphanum && rest.length ≤ 62 && rest.dropLast.all isLabelMidChar &&
    (match rest.getLast? with
     | some d => d.isAlphanum
     | none => false)

/-- Language of the full email regex of validation.ts line 29:
`^[local]+@label(\.label)*$`. Since the local class excludes the at
sign and label characters also exclude it, a string matches exactly when
it splits at a unique at sign into a non-empty local part over the local
class and a domain whose dot-separated pieces are each a valid label
(a single label with no dot is allowed by the `(\.label)*` star). -/
def emailRegexTest (s : String) : Bool :=
  match splitOnChar '@' s.data with
  | [loc, dom] =>
    !loc.isEmpty && loc.all isEmailLocalChar &&
    (splitOnChar '.' dom).all okLabel
  | _ => false

/-- validation.ts `validateEmail`. -/
def validateEmail (email : String) : ValidationResult :=
  if trimS email = "" then
    { isValid := false, message := "Email is required" }
  else if emailRegexTest (trimS email) then
    { isValid := true, message := "" }
  else
    { isValid := false,
      message := "Please enter a valid email address (e.g., name@example.com)" }

/-- The allow-list class of the phone regex of validation.ts line 60:
digits, whitespace, hyphen, parentheses, dot, plus. -/
def isPhoneChar (c : Char) : Bool :=
  c.isDigit || isWs c || c = '-' || c = '(' || c = ')' || c = '.' || c = '+'

/-- Language of the phone regex `^[\+]?[\d\s\-\(\)\.\+]+$`: because the
plus sign is itself in the repeated class, the optional leading plus is
subsumed and the language is exactly the non-empty strings over the
class. -/
def phoneRegexTest (s : String) : Bool :=
  !s.data.isEmpty && s.data.all isPhoneChar

/-- validation.ts `validatePhone`: required check, then the digit count
of the raw text (`phone.replace(/\D/g, '')`), then the allow-list regex
on the trimmed text. -/
def validatePhone (phone : String) : ValidationResult :=
  if trimS phone = "" then
    { isValid := false, message := "Phone number is required" }
  else if (phone.data.filter Char.isDigit).length < 10 then
    { isValid := false, message := "Phone number must contain at least 10 digits" }
  else if phoneRegexTest (trimS phone) then
    { isValid := true, message := "" }
  else
    { isValid := false, message := "Please enter a valid phone number" }

/-- The name regex class `[a-zA-Z\s\-'\.]` of validation.ts line 85:
letters, whitespace, hyphen, apostrophe, dot. -/
def isNameChar (c : Char) : Bool :=
  c.isAlpha || isWs c || c = '-' || c = Char.ofNat 39 || c = '.'

/-- validation.ts `validateName`. -/
def validateName (name : String) : ValidationResult :=
  if trimS name = "" then
    { isValid := false, message := "Name is required" }
  else if (trimS name).length < 2 then
    { isValid := false, message := "Name must be at least 2 characters long" }
  else if (trimS name).data.all isNameChar then
    { isValid := true, message := "" }
  else
    { isValid := false,
      message := "Name can only contain letters, spaces, hyphens, and apostrophes" }

/-- The closed department list of validation.ts `validateDepartment`. -/
def validDepartments : List String :=
  ["Engineering", "Marketing", "Sales", "Human Resources",
   "Finance", "Operations", "Customer Support", "IT", "Legal"]

/-- validation.ts `validateDepartment`. -/
def validateDepartment (department : String) : ValidationResult :=
  if trimS department = "" then
    { isValid := false, message := "Department is required" }
  else if validDepartments.contains department then
    { isValid := true, message := "" }
  else
    { isValid := false, message := "Please select a valid department" }

/-- The form draft (types `EmployeeFormData`): raw text per field. -/
structure EmployeeFormData where
  name : String
  email : String
  phone : String
  department : String
deriving DecidableEq, Repr

/-- validation.ts `validateEmployeeForm`: the field-to-result mapping, in
field declaration order (name, email, phone, department). -/
def validateEmployeeForm (formData : EmployeeFormData) :
    List (String × ValidationResult) :=
  [("name", validateName formData.name),
   ("email", validateEmail formData.email),
   ("phone", validatePhone formData.phone),
   ("department", validateDepartment formData.department)]

/-- validation.ts `isFormValid`: every entry present in the mapping is
valid (vacuously true of an empty mapping). -/
def isFormValid (errors : List (String × ValidationResult)) : Bool :=
  errors.all fun e => e.2.isValid

/-- validation.ts `getFirstErrorMessage`: message of the first invalid
entry, or the empty string. -/
def getFirstErrorMessage (errors : List (String × ValidationResult)) : String :=
  match errors.find? (fun e => !e.2.isValid) with
  | some e => e.2.message
  | none => ""

/-- The company sub-object of a record (types `Employee.company`); only
the name (the department/category label) is load-bearing. -/
structure Company where
  name : String
  catchPhrase : String
  bs : String
deriving DecidableEq, Repr

/-- A directory record (types `Employee`), restricted to the fields the
core pipeline reads. -/
structure Employee where
  id : Int
  name : String
  username : String
  email : String
  phone : String
  company : Company
deriving DecidableEq, Repr

/-- The sortable column identifiers (`SortConfig['key']`). -/
inductive SortKey where
  | id | name | email | phone | department
deriving DecidableEq, Repr

/-- Sort direction. -/
inductive Direction where
  | asc | desc
deriving DecidableEq, Repr

/-- `SortConfig`: the active sort column and direction; the absent state
is `Option.none` at use sites. -/
structure SortConfig where
  key : SortKey
  direction : Direction
deriving DecidableEq, Repr

/-- App.tsx `handleSort` as a pure transition on the sort state: same
column ascending goes to descending, same column descending goes to
absent, anything else starts ascending on the selected column. -/
def toggleSort (prevSort : Option SortConfig) (key : SortKey) :
    Option SortConfig :=
  match prevSort with
  | some prev =>
    if prev.key = key then
      match prev.direction with
      | .asc => some { key := key, direction := .desc }
      | .desc => none
    else
      some { key := key, direction := .asc }
  | none => some { key := key, direction := .asc }

/-- The search callback of App.tsx `filteredEmployees`: the term is
lower-cased and trimmed and matched case-insensitively against name,
email, department (company name), phone and username. -/
def searchMatches (searchTerm : String) (employee : Employee) : Bool :=
  let term := trimS (lowerS searchTerm)
  strIncludes (lowerS employee.name) term ||
  strIncludes (lowerS employee.email) term ||
  strIncludes (lowerS employee.company.name) term ||
  strIncludes (lowerS employee.phone) term ||
  strIncludes (lowerS employee.username) term

/-- App.tsx `filteredEmployees`: the search filter (applied only for a
non-empty raw term) followed by the department filter (exact match,
applied only for a non-empty selection). -/
def filteredEmployees (employees : List Employee)
    (searchTerm departmentFilter : String) : List Employee :=
  let afterSearch :=
    if searchTerm = "" then employees
    else employees.filter (searchMatches searchTerm)
  if departmentFilter = "" then afterSearch
  else afterSearch.filter fun employee =>
    employee.company.name = departmentFilter

/-- The column value read by the comparator of App.tsx
`sortedEmployees` for string-compared keys, already lower-cased. -/
def sortFieldOf (key : SortKey) (e : Employee) : String :=
  match key with
  | .department => lowerS e.company.name
  | .name => lowerS e.name
  | .email => lowerS e.email
  | .phone => lowerS e.phone
  | .id => ""

/-- The comparator passed to `Array.prototype.sort` in App.tsx
`sortedEmployees`: numeric difference for the id column, lexicographic
comparison of lower-cased strings otherwise, sign flipped for
descending. -/
def employeeCmp (cfg : SortConfig) (a b : Employee) : Int :=
  match cfg.key with
  | .id =>
    match cfg.direction with
    | .asc => a.id - b.id
    | .desc => b.id - a.id
  | _ =>
    let strA := sortFieldOf cfg.key a
    let strB := sortFieldOf cfg.key b
    if strA < strB then (match cfg.direction with | .asc => -1 | .desc => 1)
    else if strB < strA then (match cfg.direction with | .asc => 1 | .desc => -1)
    else 0

/-- App.tsx `sortedEmployees`: the filtered list unchanged when no sort
is active, otherwise a stable sort by the comparator (modern JS engines
guarantee `Array.prototype.sort` stability; `List.mergeSort` is the
stable model). -/
def sortedEmployees (sortConfig : Option SortConfig)
    (filtered : List Employee) : List Employee :=
  match sortConfig with
  | none => filtered
  | some cfg => filtered.mergeSort fun a b => employeeCmp cfg a b ≤ 0

/-- App.tsx `paginatedEmployees`: the slice
`sorted.slice((currentPage - 1) * pageSize, ... + pageSize)`. -/
def paginatedEmployees (sorted : List Employee)
    (currentPage pageSize : Nat) : List Employee :=
  (sorted.drop ((currentPage - 1) * pageSize)).take pageSize

/-- App.tsx `totalPages`: `Math.ceil(length / pageSize)` on naturals. -/
def totalPagesN (length pageSize : Nat) : Nat :=
  (length + pageSize - 1) / pageSize

/-- The view-parameter slice of the App.tsx component state touched by
`handlePageChange`. -/
structure AppState where
  searchTerm : String
  departmentFilter : String
  sortConfig : Option SortConfig
  currentPage : Int
  pageSize : Nat
deriving DecidableEq, Repr

/-- App.tsx `handlePageChange`: set the current page only when the
requested index lies in `[1, totalPages]`, otherwise leave the state
untouched. -/
def handlePageChange (totalPages : Int) (st : AppState) (page : Int) :
    AppState :=
  if 1 ≤ page ∧ page ≤ totalPages then { st with currentPage := page }
  else st

/-- Model of JS `name.toLowerCase().replace(/\s+/g, '.')` used by the
API service to derive a username: each maximal whitespace run becomes a
single dot. The boolean argument records whether the previous character
was whitespace. -/
def wsRunsToDots : List Char → Bool → List Char
  | [], _ => []
  | c :: rest, prevWs =>
    if isWs c then
      (if prevWs then [] else ['.']) ++ wsRunsToDots rest true
    else c :: wsRunsToDots rest false

/-- The record the API service `createEmployee` builds from a draft
(api.ts): name, email, phone are carried verbatim, the department
becomes the company name, the username is derived from the name. -/
def employeeFromDraft (d : EmployeeFormData) (newId : Int) : Employee :=
  { id := newId
    name := d.name
    username := String.mk (wsRunsToDots (lowerS d.name).data false)
    email := d.email
    phone := d.phone
    company := { name := d.department
                 catchPhrase := "Innovative solutions for modern business"
                 bs := "synergistic value-added solutions" } }

/-- The record the API service `updateEmployee` builds for a PUT: the
id is the target id, the other fields come from the draft as in create. -/
def updatedEmployeeRecord (targetId : Int) (d : EmployeeFormData) : Employee :=
  { employeeFromDraft d targetId with
      company := { name := d.department
                   catchPhrase := "Updated company information"
                   bs := "updated business solutions" } }

/-- App.tsx `handleFormSave`, create branch: the new record gets
`max(ids, 0) + 1` as id and is prepended to the collection. -/
def maxIdOf (employees : List Employee) : Int :=
  employees.foldr (fun e m => max e.id m) 0

/-- Create transition on the collection (App.tsx `handleFormSave`,
create branch). -/
def createOp (employees : List Employee) (d : EmployeeFormData) :
    List Employee :=
  employeeFromDraft d (maxIdOf employees + 1) :: employees

/-- Update transition on the collection (App.tsx `handleFormSave`,
update branch): the record with the edited id is replaced by the merge
`{ ...emp, ...updatedEmployee }`, which overwrites every modelled field;
all other records are untouched. -/
def updateOp (employees : List Employee) (targetId : Int)
    (d : EmployeeFormData) : List Employee :=
  employees.map fun emp =>
    if emp.id = targetId then updatedEmployeeRecord targetId d else emp

/-- The optimistic removal of App.tsx `handleDeleteEmployee`:
`prev.filter(emp => emp.id !== employee.id)`. -/
def deleteOptimistic (employees : List Employee) (target : Employee) :
    List Employee :=
  employees.filter fun emp => emp.id ≠ target.id

/-- The rollback of App.tsx `handleDeleteEmployee` on failure:
`[...prev, employee].sort((a, b) => a.id - b.id)`. -/
def rollbackDelete (employees : List Employee) (target : Employee) :
    List Employee :=
  (employees ++ [target]).mergeSort fun a b => a.id - b.id ≤ 0

/-- The collection-mutating operations of the session (App.tsx):
create, update, successful delete, and failed delete (optimistic
removal followed by rollback). -/
inductive Op where
  | create (d : EmployeeFormData)
  | update (targetId : Int) (d : EmployeeFormData)
  | deleteOk (target : Employee)
  | deleteFail (target : Employee)
deriving Repr

/-- Apply one operation to the collection. -/
def applyOp (employees : List Employee) : Op → List Employee
  | .create d => createOp employees d
  | .update targetId d => updateOp employees targetId d
  | .deleteOk target => deleteOptimistic employees target
  | .deleteFail target =>
    rollbackDelete (deleteOptimistic employees target) target

/-- The draft the edit form is initialised with from an existing record
(EmployeeForm.tsx): name, email, phone and the company name as the
department. -/
def draftOfEmployee (e : Employee) : EmployeeFormData :=
  { name := e.name, email := e.email, phone := e.phone,
    department := e.company.name }

/-- A minimal concrete record with a given id, used to instantiate the
universally quantified theorems at concrete inputs. -/
def emptyEmployee (i : Int) : Employee :=
  ⟨i, "", "", "", "", ⟨"", "", ""⟩⟩

/-- A concrete draft that passes all four field validators, used to
instantiate the universally quantified theorems at concrete inputs. -/
def sampleDraft : EmployeeFormData :=
  ⟨"John Doe", "john@example.com", "1-555-123-4567", "Engineering"⟩

/-- Spec-side single-pass filter condition of C4: the search condition
is active only when the lower-cased trimmed term is non-empty, the
category condition only when the category value is non-empty, and both
apply conjunctively. -/
def specKeep (searchTerm departmentFilter : String) (e : Employee) : Bool :=
  (trimS (lowerS searchTerm) = "" || searchMatches searchTerm e) &&
  (departmentFilter = "" || e.company.name = departmentFilter)

/-- Spec-side reading of the (amended) email shape: the trimmed input
splits at a unique at sign into a non-empty local part over the local
character class and a domain whose dot-separated pieces are all valid
labels. -/
def emailClaimOK (t : String) : Prop :=
  ∃ loc dom : List Char,
    t.data = loc ++ '@' :: dom ∧ '@' ∉ loc ∧ '@' ∉ dom ∧
    loc ≠ [] ∧ (∀ c ∈ loc, isEmailLocalChar c = true) ∧
    ∀ lab ∈ splitOnChar '.' dom, okLabel lab = true

lemma splitOnChar_ne_nil (sep : Char) (l : List Char) :
    splitOnChar sep l ≠ [] := by
  cases l with
  | nil => simp [splitOnChar]
  | cons c rest =>
    simp only [splitOnChar]
    split <;> simp

lemma splitOnChar_no_sep (sep : Char) :
    ∀ l : List Char, sep ∉ l → splitOnChar sep l = [l] := by
  intro l
  induction l with
  | nil => intro _; rfl
  | cons c rest ih =>
    intro h
    have hc : ¬ c = sep := by
      intro hcs; exact h (hcs ▸ List.mem_cons_self c rest)
    have hrest : sep ∉ rest := fun hm => h (List.mem_cons_of_mem c hm)
    simp only [splitOnChar, if_neg hc, ih hrest]
    rfl

lemma splitOnChar_append (sep : Char) :
    ∀ (a b : List Char), sep ∉ a →
      splitOnChar sep (a ++ sep :: b) = a :: splitOnChar sep b := by
  intro a
  induction a with
  | nil => intro b _; simp [splitOnChar]
  | cons c a' ih =>
    intro b h
    have hc : ¬ c = sep := by
      intro hcs; exact h (hcs ▸ List.mem_cons_self c a')
    have ha' : sep ∉ a' := fun hm => h (List.mem_cons_of_mem c hm)
    show splitOnChar sep (c :: (a' ++ sep :: b)) = _
    simp only [splitOnChar, if_neg hc, ih b ha']
    rfl

lemma splitOnChar_eq_single (sep : Char) :
    ∀ {l x : List Char}, splitOnChar sep l = [x] → l = x ∧ sep ∉ x := by
  intro l
  induction l with
  | nil =>
    intro x h
    have hx : x = [] := by simpa [splitOnChar] using h.symm
    subst hx
    exact ⟨rfl, by simp⟩
  | cons c rest ih =>
    intro x h
    simp only [splitOnChar] at h
    by_cases hc : c = sep
    · rw [if_pos hc] at h
      injection h with h1 h2
      exact absurd h2 (splitOnChar_ne_nil sep rest)
    · rw [if_neg hc] at h
      obtain ⟨r, t, hrt⟩ :
          ∃ r t, splitOnChar sep rest = r :: t := by
        cases hr : splitOnChar sep rest with
        | nil => exact absurd hr (splitOnChar_ne_nil sep rest)
        | cons r t => exact ⟨r, t, rfl⟩
      rw [hrt] at h
      simp only [List.headD_cons, List.tail_cons] at h
      injection h with h1 h2
      subst h2
      obtain ⟨hrest, hsep⟩ := ih hrt
      subst hrest
      refine ⟨h1, ?_⟩
      intro hmem
      rw [← h1] at hmem
      rcases List.mem_cons.mp hmem with hm | hm
      · exact hc hm.symm
      · exact hsep hm

lemma splitOnChar_eq_pair (sep : Char) :
    ∀ {l a b : List Char}, splitOnChar sep l = [a, b] →
      l = a ++ sep :: b ∧ sep ∉ a ∧ sep ∉ b := by
  intro l
  induction l with
  | nil =>
    intro a b h
    simp [splitOnChar] at h
  | cons c rest ih =>
    intro a b h
    simp only [splitOnChar] at h
    by_cases hc : c = sep
    · rw [if_pos hc] at h
      injection h with h1 h2
      obtain ⟨hrest, hsep⟩ := splitOnChar_eq_single sep h2
      subst hrest
      subst hc
      rw [← h1]
      exact ⟨rfl, by simp, hsep⟩
    · rw [if_neg hc] at h
      obtain ⟨r, t, hrt⟩ :
          ∃ r t, splitOnChar sep rest = r :: t := by
        cases hr : splitOnChar sep rest with
        | nil => exact absurd hr (splitOnChar_ne_nil sep rest)
        | cons r t => exact ⟨r, t, rfl⟩
      rw [hrt] at h
      simp only [List.headD_cons, List.tail_cons] at h
      injection h with h1 h2
      have hpair : splitOnChar sep rest = [r, b] := by
        rw [hrt, h2]
      obtain ⟨hrest, hsepr, hsepb⟩ := ih hpair
      subst hrest
      refine ⟨by rw [← h1]; simp, ?_, hsepb⟩
      intro hmem
      rw [← h1] at hmem
      rcases List.mem_cons.mp hmem with hm | hm
      · exact hc hm.symm
      · exact hsepr hm

lemma emailRegexTest_iff (t : String) :
    emailRegexTest t = true ↔ emailClaimOK t := by
  constructor
  · intro h
    unfold emailRegexTest at h
    split at h
    case h_1 loc dom heq =>
      obtain ⟨hdata, hloc, hdom⟩ := splitOnChar_eq_pair '@' heq
      simp only [Bool.and_eq_true, Bool.not_eq_true', List.isEmpty_eq_false,
        List.all_eq_true] at h
      refine ⟨loc, dom, hdata, hloc, hdom, ?_, h.1.2, h.2⟩
      simpa using h.1.1
    case h_2 => exact absurd h (by simp)
  · rintro ⟨loc, dom, hdata, hloc, hdom, hne, hlocal, hlabs⟩
    have hsplit : splitOnChar '@' t.data = [loc, dom] := by
      rw [hdata, splitOnChar_append '@' loc dom hloc,
        splitOnChar_no_sep '@' dom hdom]
    unfold emailRegexTest
    rw [hsplit]
    simp only [Bool.and_eq_true, Bool.not_eq_true', List.isEmpty_eq_false,
      List.all_eq_true]
    exact ⟨⟨by simpa using hne, hlocal⟩, hlabs⟩

/-- C2 (counterexample): the claim says every non-empty input whose
domain part contains no dot is invalid, but `validateEmail` accepts
the single-label domain input "a@b". -/
theorem validateEmail_accepts_dotless_domain :
    validateEmail "a@b" = { isValid := true, message := "" } := by decide

/-- C2 (amended): `validateEmail` rejects a blank input with
"Email is required"; otherwise the trimmed input is valid exactly when
it splits at a unique at sign into a non-empty local part over the
standard email-local characters and a domain of one or more
dot-separated alphanumeric/hyphen labels (a single label with no dot is
accepted); failures carry the fixed invalid-address message and
successes an empty message. -/
theorem validateEmail_spec (email : String) :
    (trimS email = "" →
      validateEmail email = { isValid := false, message := "Email is required" })
    ∧ (trimS email ≠ "" →
        ((validateEmail email).isValid = true ↔ emailClaimOK (trimS email)))
    ∧ (trimS email ≠ "" → (validateEmail email).isValid = false →
        (validateEmail email).message =
          "Please enter a valid email address (e.g., name@example.com)")
    ∧ ((validateEmail email).isValid = true → (validateEmail email).message = "") := by
  refine ⟨fun he => ?_, fun he => ?_, fun he hv => ?_, fun hv => ?_⟩
  · simp [validateEmail, he]
  · rw [← emailRegexTest_iff]
    unfold validateEmail
    rw [if_neg he]
    by_cases hr : emailRegexTest (trimS email) = true
    · simp [hr]
    · simp [Bool.not_eq_true] at hr
      simp [hr]
  · unfold validateEmail at hv ⊢
    rw [if_neg he] at hv ⊢
    by_cases hr : emailRegexTest (trimS email) = true
    · rw [if_pos hr] at hv; cases hv
    · simp [Bool.not_eq_true] at hr
      simp [hr]
  · unfold validateEmail at hv ⊢
    by_cases he : trimS email = ""
    · rw [if_pos he] at hv; cases hv
    · rw [if_neg he] at hv ⊢
      by_cases hr : emailRegexTest (trimS email) = true
      · simp [hr]
      · simp [Bool.not_eq_true] at hr
        rw [if_neg (by simp [hr])] at hv
        cases hv

/-- C2 witness: the amended characterization instantiated at the
concrete address "a@b.c". -/
theorem validateEmail_spec_witness :
    (validateEmail "a@b.c").isValid = true ↔ emailClaimOK (trimS "a@b.c") :=
  (validateEmail_spec "a@b.c").2.1 (by decide)

/-- C3 (counterexample): the claim allows at most one plus sign and only
in leading position, but `validatePhone` accepts "1234+567890", whose
plus sign is interior, because the plus is part of the repeated
character class of the phone regex. -/
theorem validatePhone_accepts_interior_plus :
    validatePhone "1234+567890" = { isValid := true, message := "" } := by decide

/-- C3 (amended): `validatePhone` rejects a blank input with
"Phone number is required"; with fewer than ten digit characters it
rejects with the digit-count message regardless of other characters
(digit count takes precedence over the class check); otherwise the
input is valid exactly when every character of the trimmed text is a
digit, whitespace, hyphen, parenthesis, dot, or plus sign — plus signs
being allowed at any position and in any number — with the fixed
invalid-number message on failure. -/
theorem validatePhone_spec (phone : String) :
    (trimS phone = "" →
      validatePhone phone =
        { isValid := false, message := "Phone number is required" })
    ∧ (trimS phone ≠ "" → (phone.data.filter Char.isDigit).length < 10 →
        validatePhone phone =
          { isValid := false,
            message := "Phone number must contain at least 10 digits" })
    ∧ (trimS phone ≠ "" → ¬ (phone.data.filter Char.isDigit).length < 10 →
        ((validatePhone phone).isValid = true ↔
          ((trimS phone).data ≠ [] ∧ ∀ c ∈ (trimS phone).data, isPhoneChar c = true))
        ∧ ((validatePhone phone).isValid = false →
            (validatePhone phone).message = "Please enter a valid phone number")) := by
  refine ⟨fun he => ?_, fun he hd => ?_, fun he hd => ⟨?_, fun hv => ?_⟩⟩
  · simp [validatePhone, he]
  · unfold validatePhone
    rw [if_neg he, if_pos hd]
  · unfold validatePhone
    rw [if_neg he, if_neg hd]
    unfold phoneRegexTest
    by_cases hr : (!(trimS phone).data.isEmpty && (trimS phone).data.all isPhoneChar) = true
    · rw [if_pos hr]
      simp only [Bool.and_eq_true, Bool.not_eq_true', List.isEmpty_eq_false,
        List.all_eq_true] at hr
      simpa using hr
    · rw [if_neg hr]
      simp only [Bool.and_eq_true, Bool.not_eq_true', List.isEmpty_eq_false,
        List.all_eq_true] at hr
      simpa using hr
  · unfold validatePhone at hv ⊢
    rw [if_neg he, if_neg hd] at hv ⊢
    by_cases hr : phoneRegexTest (trimS phone) = true
    · rw [if_pos hr] at hv; cases hv
    · rw [if_neg (by simpa using hr)] at hv ⊢

/-- C3 witness: the digit-count precedence conjunct instantiated at the
concrete nine-digit number "(555) 123-456". -/
theorem validatePhone_spec_witness :
    validatePhone "(555) 123-456" =
      { isValid := false, message := "Phone number must contain at least 10 digits" } :=
  (validatePhone_spec "(555) 123-456").2.1 (by decide) (by decide)

/-- C1: the sort toggle is a three-state cycle — absent or a different
column goes to ascending on the selected column, ascending on the same
column goes to descending, descending on the same column goes to
absent — so three toggles on one column starting from absent return to
absent, and the sort stage output after zero and after three toggles on
a fixed input coincide (the absent state returns the input unchanged). -/
theorem toggleSort_three_state_cycle :
    (∀ k : SortKey, toggleSort none k = some { key := k, direction := .asc })
    ∧ (∀ (p : SortConfig) (k : SortKey), p.key ≠ k →
        toggleSort (some p) k = some { key := k, direction := .asc })
    ∧ (∀ k : SortKey,
        toggleSort (some { key := k, direction := .asc }) k
          = some { key := k, direction := .desc })
    ∧ (∀ k : SortKey,
        toggleSort (some { key := k, direction := .desc }) k = none)
    ∧ (∀ (es : List Employee) (k : SortKey),
        sortedEmployees (toggleSort (toggleSort (toggleSort none k) k) k) es
          = sortedEmployees none es
        ∧ sortedEmployees none es = es) := by
  refine ⟨fun k => rfl, fun p k h => ?_, fun k => ?_, fun k => ?_,
    fun es k => ?_⟩
  · simp [toggleSort, h]
  · simp [toggleSort]
  · simp [toggleSort]
  · constructor
    · have h3 : toggleSort (toggleSort (toggleSort none k) k) k = none := by
        simp [toggleSort]
      rw [h3]
    · rfl

/-- C1 witness: selecting a different column resets to ascending,
instantiated at a name-sorted state and the id column. -/
theorem toggleSort_three_state_cycle_witness :
    toggleSort (some { key := SortKey.name, direction := .asc }) SortKey.id
      = some { key := SortKey.id, direction := .asc } :=
  toggleSort_three_state_cycle.2.1
    { key := SortKey.name, direction := .asc } SortKey.id (by decide)

/-- C6: a page change request outside [1, totalPages] is a silent no-op
on the whole view state, and a request inside the range sets exactly the
current page, leaving every other view field unchanged. -/
theorem handlePageChange_bounds (totalPages : Int) (st : AppState) (page : Int) :
    ((page < 1 ∨ totalPages < page) → handlePageChange totalPages st page = st)
    ∧ (1 ≤ page → page ≤ totalPages →
        (handlePageChange totalPages st page).currentPage = page
        ∧ (handlePageChange totalPages st page).searchTerm = st.searchTerm
        ∧ (handlePageChange totalPages st page).departmentFilter
            = st.departmentFilter
        ∧ (handlePageChange totalPages st page).sortConfig = st.sortConfig
        ∧ (handlePageChange totalPages st page).pageSize = st.pageSize) := by
  constructor
  · intro h
    unfold handlePageChange
    rw [if_neg (by omega)]
  · intro h1 h2
    unfold handlePageChange
    rw [if_pos ⟨h1, h2⟩]
    exact ⟨rfl, rfl, rfl, rfl, rfl⟩

/-- C6 witness: requesting page 5 of 3 leaves the state untouched. -/
theorem handlePageChange_bounds_witness :
    handlePageChange 3 (⟨"", "", none, 2, 10⟩ : AppState) 5
      = (⟨"", "", none, 2, 10⟩ : AppState) :=
  (handlePageChange_bounds 3 _ 5).1 (Or.inr (by decide))

/-- C10: `isFormValid` of a mapping with no entries is vacuously true
and `getFirstErrorMessage` of it is empty, although
`validateEmployeeForm` on an empty draft reports all four fields
invalid (and is therefore not form-valid). -/
theorem isFormValid_empty_mapping :
    isFormValid [] = true
    ∧ getFirstErrorMessage [] = ""
    ∧ (validateEmployeeForm
        { name := "", email := "", phone := "", department := "" }).length = 4
    ∧ (validateEmployeeForm
        { name := "", email := "", phone := "", department := "" }).all
          (fun e => !e.2.isValid) = true
    ∧ isFormValid (validateEmployeeForm
        { name := "", email := "", phone := "", department := "" }) = false := by
  decide

lemma containsSeq_nil (l : List Char) : containsSeq [] l = true := by
  cases l with
  | nil => rfl
  | cons c rest => simp [containsSeq, leadsWith]

lemma strIncludes_empty (hay : String) : strIncludes hay "" = true := by
  unfold strIncludes
  rw [show ("" : String).data = [] from rfl]
  exact containsSeq_nil hay.data

lemma searchMatches_of_term_empty {t : String} (h : trimS (lowerS t) = "")
    (e : Employee) : searchMatches t e = true := by
  unfold searchMatches
  rw [h]
  simp [strIncludes_empty]

lemma term_empty_or_searchMatches (t : String) (e : Employee) :
    ((trimS (lowerS t) = "" : Bool) || searchMatches t e) = searchMatches t e := by
  by_cases h : trimS (lowerS t) = ""
  · simp [h, searchMatches_of_term_empty h e]
  · simp [h]

/-- C4: over every record set, search term and category value, the
filter stage equals a single filter by the conjunction of the two
active conditions — search only when the lower-cased trimmed term is
non-empty, category equality only when the category value is
non-empty — so records pass unmodified in their original relative
order, the empty result is possible, and the output is a subsequence
of the input. -/
theorem filteredEmployees_spec (es : List Employee)
    (searchTerm departmentFilter : String) :
    filteredEmployees es searchTerm departmentFilter
      = es.filter (specKeep searchTerm departmentFilter)
    ∧ (filteredEmployees es searchTerm departmentFilter).Sublist es := by
  have hmain : filteredEmployees es searchTerm departmentFilter
      = es.filter (specKeep searchTerm departmentFilter) := by
    unfold filteredEmployees specKeep
    by_cases hs : searchTerm = ""
    · have hterm : trimS (lowerS searchTerm) = "" := by
        subst hs; decide
      rw [if_pos hs]
      by_cases hc : departmentFilter = ""
      · rw [if_pos hc]
        subst hc
        conv_rhs => rw [show es.filter _ = es.filter (fun _ => true) from
          List.filter_congr (fun e _ => by simp [hterm])]
        rw [List.filter_true]
      · rw [if_neg hc]
        refine List.filter_congr fun e _ => ?_
        simp [hterm, hc]
    · rw [if_neg hs]
      by_cases hc : departmentFilter = ""
      · rw [if_pos hc]
        subst hc
        refine List.filter_congr fun e _ => ?_
        rw [term_empty_or_searchMatches]
        simp
      · rw [if_neg hc]
        rw [List.filter_filter]
        refine List.filter_congr fun e _ => ?_
        rw [term_empty_or_searchMatches]
        simp [Bool.and_comm, hc]
  exact ⟨hmain, hmain ▸ List.filter_sublist es⟩

lemma pages_concat_take (s : Nat) :
    ∀ (k : Nat) (es : List Employee),
      ((List.range k).map fun i => (es.drop (i * s)).take s).flatten
        = es.take (k * s) := by
  intro k
  induction k with
  | zero => intro es; simp
  | succ k ih =>
    intro es
    rw [List.range_succ, List.map_append, List.flatten_append, ih es]
    simp only [List.map_cons, List.map_nil, List.flatten_cons,
      List.flatten_nil, List.append_nil]
    rw [Nat.succ_mul, List.take_add]

lemma totalPagesN_mul_ge (n s : Nat) (hs : 0 < s) :
    n ≤ totalPagesN n s * s := by
  unfold totalPagesN
  rcases Nat.eq_zero_or_pos n with h0 | h0
  · omega
  · have hrw : n + s - 1 = (n - 1) + s := by omega
    rw [hrw, Nat.add_div_right _ hs, Nat.add_mul, one_mul]
    have h1 := Nat.div_add_mod (n - 1) s
    have h2 := Nat.mod_lt (n - 1) hs
    have h3 : (n - 1) / s * s = s * ((n - 1) / s) := Nat.mul_comm _ _
    omega

/-- C5: for every record list and positive page size, the page count is
the ceiling of length over size (zero pages and an empty first page for
an empty list, and for a non-empty list the page count is the least
count whose capacity covers the length), every page is the contiguous
slice at (p−1)·size of length at most size, and concatenating pages
1..totalPages reproduces the list exactly. -/
theorem pagination_covers (es : List Employee) (s : Nat) (hs : 0 < s) :
    (es.length = 0 →
      totalPagesN es.length s = 0 ∧ paginatedEmployees es 1 s = [])
    ∧ (∀ p, (paginatedEmployees es p s).length ≤ s)
    ∧ (∀ p, paginatedEmployees es p s = (es.drop ((p - 1) * s)).take s)
    ∧ (0 < es.length →
        (totalPagesN es.length s - 1) * s < es.length
        ∧ es.length ≤ totalPagesN es.length s * s)
    ∧ ((List.range (totalPagesN es.length s)).map
          (fun i => paginatedEmployees es (i + 1) s)).flatten = es := by
  refine ⟨fun h0 => ?_, fun p => ?_, fun p => rfl, fun hpos => ⟨?_, ?_⟩, ?_⟩
  · constructor
    · unfold totalPagesN
      rw [h0, Nat.zero_add]
      exact Nat.div_eq_of_lt (by omega)
    · have hes : es = [] := List.length_eq_zero.mp h0
      subst hes
      simp [paginatedEmployees]
  · exact (List.length_take_le _ _).trans (le_refl s)
  · unfold totalPagesN
    have hrw : es.length + s - 1 = (es.length - 1) + s := by omega
    rw [hrw, Nat.add_div_right _ hs]
    simp only [Nat.add_sub_cancel]
    have := Nat.div_mul_le_self (es.length - 1) s
    omega
  · exact totalPagesN_mul_ge es.length s hs
  · have hcongr : ((List.range (totalPagesN es.length s)).map
        (fun i => paginatedEmployees es (i + 1) s))
        = ((List.range (totalPagesN es.length s)).map
            (fun i => (es.drop (i * s)).take s)) := by
      refine List.map_congr_left fun i _ => ?_
      unfold paginatedEmployees
      rw [Nat.add_sub_cancel]
    rw [hcongr, pages_concat_take s]
    exact List.take_of_length_le (totalPagesN_mul_ge es.length s hs)

/-- C5 witness: three records at page size two — two pages whose
concatenation is the original list. -/
theorem pagination_covers_witness :
    ((List.range (totalPagesN ([emptyEmployee 1, emptyEmployee 2,
        emptyEmployee 3] : List Employee).length 2)).map
      (fun i => paginatedEmployees
        [emptyEmployee 1, emptyEmployee 2, emptyEmployee 3] (i + 1) 2)).flatten
      = [emptyEmployee 1, emptyEmployee 2, emptyEmployee 3] :=
  (pagination_covers [emptyEmployee 1, emptyEmployee 2, emptyEmployee 3] 2
    (by decide)).2.2.2.2

lemma filter_ne_eq_erase :
    ∀ (es : List Employee) (r : Employee),
      (es.map Employee.id).Nodup → r ∈ es →
      deleteOptimistic es r = es.erase r := by
  intro es r
  induction es with
  | nil => intro _ h; cases h
  | cons e rest ih =>
    intro hnd hmem
    rw [List.map_cons, List.nodup_cons] at hnd
    obtain ⟨hid, hnd'⟩ := hnd
    by_cases he : e = r
    · subst he
      rw [List.erase_cons_head]
      unfold deleteOptimistic
      rw [List.filter_cons_of_neg (by simp)]
      refine List.filter_eq_self.mpr fun x hx => ?_
      simp only [decide_eq_true_eq]
      intro hxid
      exact hid (hxid ▸ List.mem_map_of_mem Employee.id hx)
    · have hr : r ∈ rest := by
        rcases List.mem_cons.mp hmem with h1 | h1
        · exact absurd h1.symm he
        · exact h1
      have heid : e.id ≠ r.id := by
        intro hsame
        exact hid (hsame ▸ List.mem_map_of_mem Employee.id hr)
      rw [List.erase_cons_tail (by simp [he])]
      unfold deleteOptimistic
      rw [List.filter_cons_of_pos (by simp [heid])]
      rw [← ih hnd' hr]
      rfl

/-- C7: a confirmed delete removes the record from the local collection
(the optimistic update no longer contains it), and the rollback of a
failed delete — reinsertion followed by an id sort — restores a
collection with exactly the same records (a permutation, hence the same
set) as before the delete was attempted, given the id-uniqueness
invariant. -/
theorem delete_rollback_spec (es : List Employee) (r : Employee)
    (hnd : (es.map Employee.id).Nodup) (hmem : r ∈ es) :
    r ∉ deleteOptimistic es r
    ∧ (rollbackDelete (deleteOptimistic es r) r).Perm es := by
  constructor
  · intro hr
    have := (List.mem_filter.mp hr).2
    simp at this
  · have h1 : (rollbackDelete (deleteOptimistic es r) r).Perm
        (deleteOptimistic es r ++ [r]) :=
      List.mergeSort_perm _ _
    have h2 : (deleteOptimistic es r ++ [r]).Perm (r :: deleteOptimistic es r) :=
      List.perm_append_singleton r _
    have h3 : deleteOptimistic es r = es.erase r := filter_ne_eq_erase es r hnd hmem
    have h4 : es.Perm (r :: es.erase r) := List.perm_cons_erase hmem
    exact ((h1.trans h2).trans (h3 ▸ h4.symm))

/-- C7 witness: deleting the first of two records and rolling back
restores a permutation of the original pair. -/
theorem delete_rollback_spec_witness :
    emptyEmployee 1 ∉ deleteOptimistic [emptyEmployee 1, emptyEmployee 2]
      (emptyEmployee 1)
    ∧ (rollbackDelete (deleteOptimistic [emptyEmployee 1, emptyEmployee 2]
        (emptyEmployee 1)) (emptyEmployee 1)).Perm
        [emptyEmployee 1, emptyEmployee 2] :=
  delete_rollback_spec [emptyEmployee 1, emptyEmployee 2] (emptyEmployee 1)
    (by decide) (by decide)

lemma le_maxIdOf : ∀ (es : List Employee), ∀ e ∈ es, e.id ≤ maxIdOf es := by
  intro es
  induction es with
  | nil => intro e h; cases h
  | cons a rest ih =>
    intro e he
    have hfold : maxIdOf (a :: rest) = max a.id (maxIdOf rest) := rfl
    rcases List.mem_cons.mp he with h1 | h1
    · rw [hfold, h1]; exact le_max_left _ _
    · rw [hfold]; exact (ih e h1).trans (le_max_right _ _)

lemma ids_updateOp (es : List Employee) (tid : Int) (d : EmployeeFormData) :
    (updateOp es tid d).map Employee.id = es.map Employee.id := by
  unfold updateOp
  rw [List.map_map]
  refine List.map_congr_left fun e _ => ?_
  by_cases h : e.id = tid
  · simp only [Function.comp_apply, if_pos h]
    exact h.symm
  · simp only [Function.comp_apply, if_neg h]

lemma nodup_applyOp (es : List Employee) (op : Op)
    (h : (es.map Employee.id).Nodup) :
    ((applyOp es op).map Employee.id).Nodup := by
  cases op with
  | create d =>
    show ((maxIdOf es + 1) :: es.map Employee.id).Nodup
    rw [List.nodup_cons]
    refine ⟨fun hm => ?_, h⟩
    obtain ⟨e, he, hid⟩ := List.mem_map.mp hm
    have := le_maxIdOf es e he
    omega
  | update tid d =>
    show ((updateOp es tid d).map Employee.id).Nodup
    rw [ids_updateOp]
    exact h
  | deleteOk target =>
    exact ((List.filter_sublist es).map Employee.id).nodup h
  | deleteFail target =>
    show ((rollbackDelete (deleteOptimistic es target) target).map
      Employee.id).Nodup
    have hperm : ((rollbackDelete (deleteOptimistic es target) target).map
        Employee.id).Perm
        ((deleteOptimistic es target ++ [target]).map Employee.id) :=
      (List.mergeSort_perm _ _).map Employee.id
    rw [hperm.nodup_iff, List.map_append, List.nodup_append]
    refine ⟨((List.filter_sublist es).map Employee.id).nodup h, by simp, ?_⟩
    intro a ha
    obtain ⟨e, he, hid⟩ := List.mem_map.mp ha
    have hne : e.id ≠ target.id := by
      have := (List.mem_filter.mp he).2
      simpa using this
    simp only [List.map_cons, List.map_nil, List.mem_singleton]
    rw [← hid]
    exact hne

/-- C8: starting from a collection with pairwise-distinct identifiers,
every state reachable by any sequence of create (which assigns the
current maximum identifier plus one), update, delete, and failed-delete
rollback again has pairwise-distinct identifiers; moreover update
leaves the identifier list unchanged (no existing record's identifier
changes) and create prepends exactly maxId + 1. -/
theorem ids_nodup_invariant :
    (∀ (ops : List Op) (es : List Employee),
        (es.map Employee.id).Nodup →
        ((ops.foldl applyOp es).map Employee.id).Nodup)
    ∧ (∀ (es : List Employee) (tid : Int) (d : EmployeeFormData),
        (updateOp es tid d).map Employee.id = es.map Employee.id)
    ∧ (∀ (es : List Employee) (d : EmployeeFormData),
        (createOp es d).map Employee.id
          = (maxIdOf es + 1) :: es.map Employee.id) := by
  refine ⟨fun ops => ?_, ids_updateOp, fun es d => rfl⟩
  induction ops with
  | nil => intro es h; exact h
  | cons op ops ih =>
    intro es h
    exact ih (applyOp es op) (nodup_applyOp es op h)

/-- C8 witness: a create followed by a failed delete on a two-record
collection keeps the identifier list duplicate-free. -/
theorem ids_nodup_invariant_witness :
    ((([Op.create sampleDraft,
        Op.deleteFail (emptyEmployee 1)]).foldl applyOp
        [emptyEmployee 1, emptyEmployee 2]).map Employee.id).Nodup :=
  ids_nodup_invariant.1 [Op.create sampleDraft,
    Op.deleteFail (emptyEmployee 1)] [emptyEmployee 1, emptyEmployee 2]
    (by decide)

/-- C9: a draft on which every field validator passes still passes after
the round trip through record construction — create path (fields carried
verbatim, department stored as the company name) or update path — and
draft re-extraction from the stored record. -/
theorem validator_round_trip (d : EmployeeFormData) (newId targetId : Int)
    (h : isFormValid (validateEmployeeForm d) = true) :
    isFormValid (validateEmployeeForm
      (draftOfEmployee (employeeFromDraft d newId))) = true
    ∧ isFormValid (validateEmployeeForm
      (draftOfEmployee (updatedEmployeeRecord targetId d))) = true := by
  have h1 : draftOfEmployee (employeeFromDraft d newId) = d := rfl
  have h2 : draftOfEmployee (updatedEmployeeRecord targetId d) = d := rfl
  rw [h1, h2]
  exact ⟨h, h⟩

/-- C9 witness: the round trip at a concrete all-valid draft. -/
theorem validator_round_trip_witness :
    isFormValid (validateEmployeeForm
      (draftOfEmployee (employeeFromDraft sampleDraft 11))) = true
    ∧ isFormValid (validateEmployeeForm
      (draftOfEmployee (updatedEmployeeRecord 3 sampleDraft))) = true :=
  validator_round_trip sampleDraft 11 3 (by decide)

end Dashboard
